import Mathlib

/-!
Verification of the Focus_Flow habit tracker.

The frontend dashboard (frontend/src/pages/DashboardPage.js) is embedded
shallowly: JS millisecond timestamps become Int, JS floor division becomes
Int.fdiv, and Date.parse results become Option Int (none models NaN).
The backend leaderboard engine is not present in the sources, so its
reset and computeWeekly operations are modelled from the specification.
-/

namespace FocusFlow

/-! ### Clock-skew compensation and countdowns (DashboardPage.js) -/

/-- Embeds the serverOffsetMs state update in fetchDashboardData:
the offset is parse(server now) minus the client clock at fetch time when
the parse is finite, and stays at its initial value 0 otherwise. -/
def serverOffset (serverNowParse : Option Int) (clientNowAtFetch : Int) : Int :=
  match serverNowParse with
  | some s => s - clientNowAtFetch
  | none => 0

/-- Embeds computeSecondsRemaining: Date.parse failure yields 0, otherwise
max(0, floor((t - (clientNow + offset)) / 1000)). -/
def computeSecondsRemaining (endParse : Option Int) (clientNow offset : Int) : Int :=
  match endParse with
  | none => 0
  | some t => max 0 ((t - (clientNow + offset)).fdiv 1000)

/-! ### Elapsed days and weekly schedule denominator (DashboardPage.js) -/

/-- Embeds daysElapsedInWeek: 0 when week_start does not parse, otherwise
max(0, min(7, floor((nowMs - startMs) / 86400000) + 1)). -/
def daysElapsedInWeek (nowMs : Int) (startParse : Option Int) : Int :=
  match startParse with
  | none => 0
  | some s => max 0 (min 7 ((nowMs - s).fdiv 86400000 + 1))

/-- Embeds totalPossibleThisWeek = max(1, habits.length * max(1, daysElapsedInWeek)). -/
def totalPossibleThisWeek (nHabits : Nat) (d : Int) : Int :=
  max 1 ((nHabits : Int) * max 1 d)

end FocusFlow

namespace FocusFlow

lemma clampDays_eq (x : Int) : max 1 (max 0 (min 7 x)) = min 7 (max 1 x) := by
  omega

end FocusFlow

/-- C3: for every habit list and every parseable week_start instant, the weekly
scheduled denominator equals max(1, habit_count * d) where d is
floor((now - week_start) / 86400000) + 1 clamped to at least 1 and capped at 7,
and the denominator is always at least 1. -/
theorem FocusFlow.weekly_denominator_clamped
    (n : Nat) (nowMs : Int) (startParse : Option Int) (s : Int)
    (hp : startParse = some s) :
    totalPossibleThisWeek n (daysElapsedInWeek nowMs startParse)
      = max 1 ((n : Int) * min 7 (max 1 ((nowMs - s).fdiv 86400000 + 1))) ∧
    1 ≤ totalPossibleThisWeek n (daysElapsedInWeek nowMs startParse) := by
  subst hp
  constructor
  · show max 1 ((n : Int) * max 1 (max 0 (min 7 ((nowMs - s).fdiv 86400000 + 1))))
       = max 1 ((n : Int) * min 7 (max 1 ((nowMs - s).fdiv 86400000 + 1)))
    rw [clampDays_eq]
  · exact le_max_left 1 _

/-- Witness for C3 at a concrete instant: three elapsed days, two habits. -/
theorem FocusFlow.weekly_denominator_clamped_witness :
    FocusFlow.totalPossibleThisWeek 2
        (FocusFlow.daysElapsedInWeek 172800000 (some 0))
      = max 1 ((2 : Int) * min 7 (max 1 (((172800000 : Int) - 0).fdiv 86400000 + 1))) ∧
    1 ≤ FocusFlow.totalPossibleThisWeek 2
        (FocusFlow.daysElapsedInWeek 172800000 (some 0)) :=
  FocusFlow.weekly_denominator_clamped 2 172800000 (some 0) 0 rfl

/-- C4: the displayed remaining seconds equal
max(0, floor((end - (clientNow + offset)) / 1000)) with the offset as coded,
an unparseable end yields 0, the result is never negative, and a constant
client clock skew cancels out of the result. -/
theorem FocusFlow.countdown_skew_cancels
    (endParse : Option Int) (clientNow offset sNow trueFetch trueNow skew : Int) :
    (∀ t, endParse = some t →
      computeSecondsRemaining endParse clientNow offset
        = max 0 ((t - (clientNow + offset)).fdiv 1000)) ∧
    computeSecondsRemaining none clientNow offset = 0 ∧
    0 ≤ computeSecondsRemaining endParse clientNow offset ∧
    computeSecondsRemaining endParse (trueNow + skew)
        (serverOffset (some sNow) (trueFetch + skew))
      = computeSecondsRemaining endParse trueNow (serverOffset (some sNow) trueFetch) := by
  refine ⟨?_, rfl, ?_, ?_⟩
  · intro t ht; subst ht; rfl
  · cases endParse with
    | none => exact le_refl 0
    | some t => exact le_max_left 0 _
  · cases endParse with
    | none => rfl
    | some t =>
      show max 0 ((t - ((trueNow + skew) + (sNow - (trueFetch + skew)))).fdiv 1000)
         = max 0 ((t - (trueNow + (sNow - trueFetch))).fdiv 1000)
      have h : t - ((trueNow + skew) + (sNow - (trueFetch + skew)))
             = t - (trueNow + (sNow - trueFetch)) := by ring
      rw [h]

/-- Witness for C4 at concrete values, discharging the inner parse hypothesis. -/
theorem FocusFlow.countdown_skew_cancels_witness :
    FocusFlow.computeSecondsRemaining (some 10000) 2000 500
      = max 0 (((10000 : Int) - (2000 + 500)).fdiv 1000) :=
  (FocusFlow.countdown_skew_cancels (some 10000) 2000 500 0 0 0 0).1 10000 rfl

namespace FocusFlow

/-! ### Client-side percentages (DashboardPage.js) -/

/-- JS Math.round on a nonnegative quotient num / den: floor of the quotient
plus one half, i.e. round-half-up. -/
def jsRoundNatDiv (num den : Nat) : Nat :=
  (2 * num + den) / (2 * den)

/-- JS Math.round on an integer quotient a / b (b positive): floor(a/b + 1/2),
half rounds toward positive infinity. -/
def jsRoundIntDiv (a b : Int) : Int :=
  (2 * a + b).fdiv (2 * b)

/-- Embeds the JS expression h.goal || 7: a zero (falsy) or absent goal
falls back to 7. -/
def goalOrDefault (g : Option Nat) : Nat :=
  match g with
  | none => 7
  | some 0 => 7
  | some k => k

/-- Embeds const goal = Math.max(1, Number(h.goal || 7)). -/
def effectiveGoal (g : Option Nat) : Nat :=
  max 1 (goalOrDefault g)

/-- Embeds the per-habit progress
Math.max(0, Math.min(100, Math.round((done / goal) * 100))). -/
def habitPct (done : Nat) (g : Option Nat) : Nat :=
  max 0 (min 100 (jsRoundNatDiv (done * 100) (effectiveGoal g)))

/-- The per-habit progress formula as the claim words it: goal defaults to 7
only when absent, so a present zero goal passes through max(1, goal) as 1. -/
def claimedHabitPct (done : Nat) (g : Option Nat) : Nat :=
  max 0 (min 100 (jsRoundNatDiv (done * 100) (max 1 (g.getD 7))))

/-- One row of the weekly leaderboard payload consumed by
WeeklyLeaderboardCard. -/
structure LbEntry where
  user_id : String
  name : String
  score : Option Int
  rank : Nat
deriving DecidableEq

/-- Embeds the JS expression e.score || 0 (an absent score is falsy). -/
def effScore (e : LbEntry) : Int :=
  e.score.getD 0

/-- Embeds const maxScore = Math.max(1, ...entries.map((e) => e.score || 0)). -/
def maxScore (entries : List LbEntry) : Int :=
  entries.foldr (fun e m => max (effScore e) m) 1

/-- Embeds const pct = Math.round(((e.score || 0) / maxScore) * 100). -/
def lbPct (e : LbEntry) (entries : List LbEntry) : Int :=
  jsRoundIntDiv (effScore e * 100) (maxScore entries)

lemma one_le_maxScore (entries : List LbEntry) : 1 ≤ maxScore entries := by
  induction entries with
  | nil => exact le_refl 1
  | cons e es ih => exact le_trans ih (le_max_right _ _)

lemma effScore_le_maxScore {e : LbEntry} {entries : List LbEntry}
    (he : e ∈ entries) : effScore e ≤ maxScore entries := by
  induction entries with
  | nil => cases he
  | cons x xs ih =>
    rcases List.mem_cons.mp he with h | h
    · subst h; exact le_max_left _ _
    · exact le_trans (ih h) (le_max_right _ _)

lemma jsRoundNatDiv_le_100 {num den : Nat} (hden : 1 ≤ den)
    (h : num ≤ 100 * den) : jsRoundNatDiv num den ≤ 100 := by
  unfold jsRoundNatDiv
  have hpos : 0 < 2 * den := by omega
  have hlt : (2 * num + den) / (2 * den) < 101 := by
    rw [Nat.div_lt_iff_lt_mul hpos]; omega
  omega

end FocusFlow

/-- C5 counterexample: with a present zero weekly goal the code falls back to
the default goal 7 (JS falsiness), while the claimed formula max(1, goal)
divides by 1; at done = 1 the code shows 14 percent, the claimed formula 100. -/
theorem FocusFlow.habit_goal_zero_counterexample :
    FocusFlow.habitPct 1 (some 0) = 14 ∧
    FocusFlow.claimedHabitPct 1 (some 0) = 100 ∧
    FocusFlow.habitPct 1 (some 0) ≠ FocusFlow.claimedHabitPct 1 (some 0) := by
  decide

/-- C5 (amended): per-habit progress equals
clamp(round(done / max(1, goal) * 100), 0, 100) with goal defaulting to 7 when
absent or zero, so it is an integer in [0, 100]; the leaderboard bar equals
round(score / max(1, max over entry scores) * 100) and lies in [0, 100] for
nonnegative scores; every divisor is guarded by max(1, _), hence positive. -/
theorem FocusFlow.dashboard_percentages_bounded
    (done : Nat) (g : Option Nat) (entries : List FocusFlow.LbEntry)
    (e : FocusFlow.LbEntry) (he : e ∈ entries)
    (hs : ∀ x ∈ entries, 0 ≤ FocusFlow.effScore x) :
    habitPct done g
      = min 100 (jsRoundNatDiv (done * 100) (max 1 (goalOrDefault g))) ∧
    habitPct done g ≤ 100 ∧
    1 ≤ effectiveGoal g ∧
    1 ≤ maxScore entries ∧
    lbPct e entries = jsRoundIntDiv (effScore e * 100) (maxScore entries) ∧
    0 ≤ lbPct e entries ∧
    lbPct e entries ≤ 100 := by
  refine ⟨by simp [habitPct, effectiveGoal], ?_, le_max_left 1 _,
    one_le_maxScore entries, rfl, ?_, ?_⟩
  · simp [habitPct]
  · unfold lbPct jsRoundIntDiv
    have hm : (0 : Int) ≤ maxScore entries :=
      le_trans (by omega) (one_le_maxScore entries)
    have hse : (0 : Int) ≤ effScore e := hs e he
    exact Int.fdiv_nonneg (by nlinarith [hs e he]) (by omega)
  · have hm1 : (1 : Int) ≤ maxScore entries := one_le_maxScore entries
    have hse : (0 : Int) ≤ effScore e := hs e he
    have hle : effScore e ≤ maxScore entries := effScore_le_maxScore he
    unfold lbPct jsRoundIntDiv
    obtain ⟨sn, hsn⟩ := Int.eq_ofNat_of_zero_le hse
    obtain ⟨mn, hmn⟩ := Int.eq_ofNat_of_zero_le (le_trans (by omega) hm1)
    rw [hsn, hmn]
    have hcast : (2 * ((sn : Int) * 100) + (mn : Int)).fdiv (2 * (mn : Int))
        = ((2 * (sn * 100) + mn) / (2 * mn) : Nat) := by
      rw [Int.ofNat_fdiv]
      push_cast
      ring_nf
    rw [hcast]
    have hsnm : sn ≤ mn := by
      rw [hsn, hmn] at hle; exact_mod_cast hle
    have hmn1 : 1 ≤ mn := by
      rw [hmn] at hm1; exact_mod_cast hm1
    have h100 : (2 * (sn * 100) + mn) / (2 * mn) ≤ 100 := by
      have hpos : 0 < 2 * mn := by omega
      have hlt : (2 * (sn * 100) + mn) / (2 * mn) < 101 := by
        rw [Nat.div_lt_iff_lt_mul hpos]; omega
      omega
    exact_mod_cast h100

/-- C5 witness: a two-entry leaderboard with nonnegative scores and a habit
with goal 5 and 2 completions. -/
theorem FocusFlow.dashboard_percentages_bounded_witness :
    FocusFlow.habitPct 2 (some 5)
      = min 100 (FocusFlow.jsRoundNatDiv (2 * 100)
          (max 1 (FocusFlow.goalOrDefault (some 5)))) ∧
    FocusFlow.habitPct 2 (some 5) ≤ 100 ∧
    1 ≤ FocusFlow.effectiveGoal (some 5) ∧
    1 ≤ FocusFlow.maxScore
        [⟨"u1", "A", some 5, 1⟩, ⟨"u2", "B", some 3, 2⟩] ∧
    FocusFlow.lbPct ⟨"u2", "B", some 3, 2⟩
        [⟨"u1", "A", some 5, 1⟩, ⟨"u2", "B", some 3, 2⟩]
      = FocusFlow.jsRoundIntDiv (FocusFlow.effScore ⟨"u2", "B", some 3, 2⟩ * 100)
          (FocusFlow.maxScore [⟨"u1", "A", some 5, 1⟩, ⟨"u2", "B", some 3, 2⟩]) ∧
    0 ≤ FocusFlow.lbPct ⟨"u2", "B", some 3, 2⟩
        [⟨"u1", "A", some 5, 1⟩, ⟨"u2", "B", some 3, 2⟩] ∧
    FocusFlow.lbPct ⟨"u2", "B", some 3, 2⟩
        [⟨"u1", "A", some 5, 1⟩, ⟨"u2", "B", some 3, 2⟩] ≤ 100 :=
  FocusFlow.dashboard_percentages_bounded 2 (some 5)
    [⟨"u1", "A", some 5, 1⟩, ⟨"u2", "B", some 3, 2⟩]
    ⟨"u2", "B", some 3, 2⟩ (by decide) (by decide)

namespace FocusFlow

/-! ### Completion-breakdown pie data (DashboardPage.js) -/

/-- The completion_breakdown payload; a missing count is none and the JS
consumer coerces it with || 0. -/
structure Breakdown where
  completed : Option Nat
  missed : Option Nat
  skipped : Option Nat
deriving DecidableEq

/-- Embeds pieData: the three status rows built with || 0 defaults, then
filtered to the strictly positive values; no breakdown yields the empty list. -/
def pieData (b : Option Breakdown) : List (String × Nat) :=
  match b with
  | none => []
  | some bb =>
      ([("Completed", bb.completed.getD 0),
        ("Missed", bb.missed.getD 0),
        ("Skipped", bb.skipped.getD 0)]).filter (fun p => 0 < p.2)

end FocusFlow

/-- C6: the pie data contains a status row exactly when its count (with a
missing count read as 0) is strictly positive, and then with exactly that
count; a zero or missing count is omitted, and the drop happens in this
consumer, whose input breakdown is passed through unchanged. -/
theorem FocusFlow.pieData_positive_counts
    (bb : FocusFlow.Breakdown) (v : Nat) :
    (("Completed", v) ∈ pieData (some bb) ↔ bb.completed.getD 0 = v ∧ 0 < v) ∧
    (("Missed", v) ∈ pieData (some bb) ↔ bb.missed.getD 0 = v ∧ 0 < v) ∧
    (("Skipped", v) ∈ pieData (some bb) ↔ bb.skipped.getD 0 = v ∧ 0 < v) ∧
    pieData none = [] := by
  refine ⟨?_, ?_, ?_, rfl⟩ <;>
    · simp only [pieData, List.mem_filter, List.mem_cons, List.not_mem_nil,
        or_false, Prod.mk.injEq]
      constructor
      · rintro ⟨h | h | h, hv⟩ <;>
          first
            | exact ⟨h.2.symm, by simpa [← h.2] using hv⟩
            | exact absurd h.1 (by decide)
      · rintro ⟨hv, hpos⟩
        exact ⟨by tauto, by simpa [hv] using hpos⟩

namespace FocusFlow

/-! ### Completed-this-week grouping (DashboardPage.js) -/

/-- One habit log row returned by the logs endpoint; habit_id is none when
absent and the empty string is JS-falsy. -/
structure HabitLog where
  habit_id : Option String
  status : String
deriving DecidableEq

/-- Embeds the reduce guard log?.status === 'completed' && log?.habit_id
(an absent or empty habit_id is falsy). -/
def logCompleted (l : HabitLog) : Bool :=
  l.status == "completed" &&
    (match l.habit_id with
     | some h => h != ""
     | none => false)

/-- Embeds acc[id] = (acc[id] || 0) + 1 on a key-count association list. -/
def bump (acc : List (String × Nat)) (k : String) : List (String × Nat) :=
  match acc with
  | [] => [(k, 1)]
  | (k2, n) :: rest =>
      if k2 == k then (k2, n + 1) :: rest else (k2, n) :: bump rest k

/-- One step of the completedByHabit reduce: bump the count under the habit
key when the guard log?.status === 'completed' && log?.habit_id holds. -/
def weekStep (acc : List (String × Nat)) (l : HabitLog) : List (String × Nat) :=
  match l.habit_id with
  | some h => if l.status == "completed" && h != "" then bump acc h else acc
  | none => acc

/-- Embeds the completedByHabit reduce over the week logs. -/
def completedByHabit (logs : List HabitLog) : List (String × Nat) :=
  logs.foldl weekStep []

/-- Embeds totalCompletedThisWeek =
Object.values(completedByHabit).reduce((sum, n) => sum + (n || 0), 0). -/
def totalCompletedThisWeek (logs : List HabitLog) : Nat :=
  ((completedByHabit logs).map Prod.snd).sum

lemma sum_bump (acc : List (String × Nat)) (k : String) :
    ((bump acc k).map Prod.snd).sum = ((acc.map Prod.snd)).sum + 1 := by
  induction acc with
  | nil => rfl
  | cons p rest ih =>
    obtain ⟨k2, n⟩ := p
    by_cases h : k2 == k
    · simp [bump, h]; omega
    · simp [bump, h, ih]; omega

lemma weekStep_sum (acc : List (String × Nat)) (l : HabitLog) :
    ((weekStep acc l).map Prod.snd).sum
      = (acc.map Prod.snd).sum + (if logCompleted l then 1 else 0) := by
  rcases hid : l.habit_id with _ | h
  · simp [weekStep, logCompleted, hid]
  · by_cases hc : (l.status == "completed" && h != "") = true
    · simp [weekStep, logCompleted, hid, hc, sum_bump]
    · simp only [Bool.not_eq_true] at hc
      simp [weekStep, logCompleted, hid, hc]

lemma weekStep_not_completed (acc : List (String × Nat)) (l : HabitLog)
    (hl : logCompleted l = false) : weekStep acc l = acc := by
  rcases hid : l.habit_id with _ | h
  · simp [weekStep, hid]
  · have hc : (l.status == "completed" && h != "") = false := by
      simpa [logCompleted, hid] using hl
    simp [weekStep, hid, hc]

lemma foldl_weekStep_sum (logs : List HabitLog) :
    ∀ acc : List (String × Nat),
      ((logs.foldl weekStep acc).map Prod.snd).sum
        = (acc.map Prod.snd).sum + logs.countP logCompleted := by
  induction logs with
  | nil => intro acc; simp
  | cons l rest ih =>
    intro acc
    rw [List.foldl_cons, ih, weekStep_sum, List.countP_cons]
    by_cases hc : logCompleted l = true
    · simp [hc]
      omega
    · simp [hc]

end FocusFlow

/-- C7: the total completed-this-week count equals the number of week logs
with status completed and a (truthy) habit_id, so grouping by habit conserves
the total; and a log that is not completed or carries no habit_id leaves the
grouping, and hence every per-habit count and the total, unchanged. -/
theorem FocusFlow.completed_total_conserved
    (logs : List FocusFlow.HabitLog) (l : FocusFlow.HabitLog)
    (hl : FocusFlow.logCompleted l = false) :
    totalCompletedThisWeek logs = logs.countP logCompleted ∧
    completedByHabit (l :: logs) = completedByHabit logs ∧
    totalCompletedThisWeek (l :: logs) = totalCompletedThisWeek logs := by
  have hmain : ∀ lgs : List HabitLog,
      totalCompletedThisWeek lgs = lgs.countP logCompleted := by
    intro lgs
    have := foldl_weekStep_sum lgs []
    simpa [totalCompletedThisWeek, completedByHabit] using this
  refine ⟨hmain logs, ?_, ?_⟩
  · unfold completedByHabit
    rw [List.foldl_cons, weekStep_not_completed _ _ hl]
  · rw [hmain (l :: logs), hmain logs, List.countP_cons, hl]
    simp

/-- C7 witness: three logs, one of which is completed with a habit_id;
the prepended log is completed but lacks a habit_id. -/
theorem FocusFlow.completed_total_conserved_witness :
    FocusFlow.totalCompletedThisWeek
        [⟨some "a", "completed"⟩, ⟨some "a", "missed"⟩, ⟨some "b", "completed"⟩]
      = List.countP FocusFlow.logCompleted
        [⟨some "a", "completed"⟩, ⟨some "a", "missed"⟩, ⟨some "b", "completed"⟩] ∧
    FocusFlow.completedByHabit
        (⟨none, "completed"⟩ ::
          [⟨some "a", "completed"⟩, ⟨some "a", "missed"⟩, ⟨some "b", "completed"⟩])
      = FocusFlow.completedByHabit
        [⟨some "a", "completed"⟩, ⟨some "a", "missed"⟩, ⟨some "b", "completed"⟩] ∧
    FocusFlow.totalCompletedThisWeek
        (⟨none, "completed"⟩ ::
          [⟨some "a", "completed"⟩, ⟨some "a", "missed"⟩, ⟨some "b", "completed"⟩])
      = FocusFlow.totalCompletedThisWeek
        [⟨some "a", "completed"⟩, ⟨some "a", "missed"⟩, ⟨some "b", "completed"⟩] :=
  FocusFlow.completed_total_conserved
    [⟨some "a", "completed"⟩, ⟨some "a", "missed"⟩, ⟨some "b", "completed"⟩]
    ⟨none, "completed"⟩ (by decide)

namespace FocusFlow

/-! ### Dashboard fetch error path (DashboardPage.js) -/

/-- The component state touched by fetchDashboardData. Payload values are
abstracted to Nat; none models the initial null. -/
structure DashState where
  loading : Bool
  data : Option Nat
  leaderboard : Option Nat
  countdown : Option Nat
  habits : List Nat
  weekLogs : List Nat
deriving DecidableEq

/-- The useState initial values: loading true, null data, empty lists. -/
def initialDashState : DashState :=
  ⟨true, none, none, none, [], []⟩

/-- The four payloads resolved together by Promise.all plus the week logs. -/
structure FetchPayload where
  dashboard : Nat
  leaderboard : Nat
  countdown : Nat
  habits : List Nat
  weekLogs : List Nat
deriving DecidableEq

/-- Outcome of one fetchDashboardData call: the resulting component state,
whether the rejection escapes to the caller, and whether console.error ran. -/
structure FetchResult where
  state : DashState
  rethrown : Bool
  consoleLogged : Bool
deriving DecidableEq

/-- Embeds fetchDashboardData: on success every state field is set; on any
rejection the catch block only calls console.error, the finally block clears
loading, and the async function still resolves. -/
def fetchDashboardData (res : Except Nat FetchPayload) (st : DashState) :
    FetchResult :=
  match res with
  | .ok p =>
      ⟨⟨false, some p.dashboard, some p.leaderboard, some p.countdown,
        p.habits, p.weekLogs⟩, false, false⟩
  | .error _ =>
      ⟨{ st with loading := false }, false, true⟩

end FocusFlow

/-- C8 counterexample: a failing fetch is caught, not surfaced to the caller;
the call resolves with the initial null/empty state (loading cleared), which
is exactly what a success rendering empty data looks like to the page. -/
theorem FocusFlow.fetch_error_not_surfaced :
    (FocusFlow.fetchDashboardData (Except.error 0)
        FocusFlow.initialDashState).rethrown = false ∧
    (FocusFlow.fetchDashboardData (Except.error 0)
        FocusFlow.initialDashState).state
      = ⟨false, none, none, none, [], []⟩ := by
  decide

/-- C8 (amended): a failed dashboard fetch is caught inside the component:
console.error runs, the loading flag is cleared, no data, leaderboard,
countdown, habits or week-log state is written, and the error is not
rethrown to the caller, so the page renders its empty defaults. -/
theorem FocusFlow.fetch_error_caught_logged
    (e : Nat) (st : FocusFlow.DashState) :
    fetchDashboardData (Except.error e) st
      = ⟨{ st with loading := false }, false, true⟩ :=
  rfl

namespace FocusFlow

/-! ### Countdown formatting (DashboardPage.js, formatDDHHMMSS) -/

/-- A JS number argument as the countdown code distinguishes it: a finite
rational value or one of the non-finite values. -/
inductive JSNumber where
  | finite (q : ℚ)
  | nan
  | posInf
  | negInf
deriving DecidableEq

/-- Base-10 digit values of a natural number, most significant first;
the digit string JS produces for a nonnegative integer. -/
def natDigits (n : Nat) : List Nat :=
  if _hlt : n < 10 then [n] else natDigits (n / 10) ++ [n % 10]
decreasing_by omega

/-- ASCII codes of the decimal rendering of n. -/
def digitCodes (n : Nat) : List Nat :=
  (natDigits n).map (fun d => d + 48)

/-- Embeds pad2 = String(Math.max(0, n)).padStart(2, 48): left-pad the digit
codes with the zero character to length at least 2; longer strings pass
through untruncated. -/
def pad2 (n : Nat) : List Nat :=
  List.replicate (2 - (digitCodes n).length) 48 ++ digitCodes n

/-- Embeds Math.max(0, Number.isFinite(t) ? Math.floor(t) : 0): the clamped
whole-second count fed to the DD:HH:MM:SS split. -/
def clampSeconds (x : JSNumber) : Nat :=
  match x with
  | .finite q => (Int.floor q).toNat
  | _ => 0

/-- Embeds formatDDHHMMSS as the code-point list of the returned string
(58 is the colon). -/
def formatDDHHMMSS (x : JSNumber) : List Nat :=
  pad2 (clampSeconds x / 86400) ++ 58 ::
    pad2 (clampSeconds x % 86400 / 3600) ++ 58 ::
      pad2 (clampSeconds x % 3600 / 60) ++ 58 ::
        pad2 (clampSeconds x % 60)

lemma natDigits_length_pos (n : Nat) : 1 ≤ (natDigits n).length := by
  unfold natDigits
  split
  · simp
  · simp

lemma natDigits_length_three (n : Nat) (h : 100 ≤ n) :
    3 ≤ (natDigits n).length := by
  have h1 : ¬ n < 10 := by omega
  have h2 : ¬ n / 10 < 10 := by omega
  rw [natDigits, dif_neg h1, natDigits, dif_neg h2]
  have := natDigits_length_pos (n / 10 / 10)
  simp only [List.length_append, List.length_cons, List.length_nil]
  omega

lemma pad2_two_le (n : Nat) : 2 ≤ (pad2 n).length := by
  simp only [pad2, digitCodes, List.length_append, List.length_replicate,
    List.length_map]
  omega

lemma pad2_three_le (n : Nat) : 100 ≤ n → 3 ≤ (pad2 n).length := by
  intro h
  have := natDigits_length_three n h
  simp only [pad2, digitCodes, List.length_append, List.length_replicate,
    List.length_map]
  omega

end FocusFlow

/-- C9: formatDDHHMMSS always renders DD:HH:MM:SS with every component padded
to at least two digits, hours below 24, minutes and seconds below 60; for
finite nonnegative input the components decompose floor(x) exactly; NaN,
infinite, or negative input renders as 00:00:00:00; and a day count of 100 or
more keeps all its digits. -/
theorem FocusFlow.formatDDHHMMSS_decomposes (x : FocusFlow.JSNumber) :
    ∃ d h m sec : Nat,
      formatDDHHMMSS x
        = pad2 d ++ 58 :: pad2 h ++ 58 :: pad2 m ++ 58 :: pad2 sec ∧
      h < 24 ∧ m < 60 ∧ sec < 60 ∧
      2 ≤ (pad2 d).length ∧ 2 ≤ (pad2 h).length ∧
      2 ≤ (pad2 m).length ∧ 2 ≤ (pad2 sec).length ∧
      (100 ≤ d → 3 ≤ (pad2 d).length) ∧
      (∀ q : ℚ, x = FocusFlow.JSNumber.finite q → 0 ≤ q →
        ((d : Int) * 86400 + h * 3600 + m * 60 + sec) = Int.floor q) ∧
      ((x = FocusFlow.JSNumber.nan ∨ x = FocusFlow.JSNumber.posInf ∨
          x = FocusFlow.JSNumber.negInf ∨
          (∃ q : ℚ, x = FocusFlow.JSNumber.finite q ∧ q < 0)) →
        formatDDHHMMSS x
          = pad2 0 ++ 58 :: pad2 0 ++ 58 :: pad2 0 ++ 58 :: pad2 0) := by
  refine ⟨clampSeconds x / 86400, clampSeconds x % 86400 / 3600,
    clampSeconds x % 3600 / 60, clampSeconds x % 60, rfl,
    by omega, by omega, by omega,
    pad2_two_le _, pad2_two_le _, pad2_two_le _, pad2_two_le _,
    pad2_three_le _, ?_, ?_⟩
  · intro q hq hq0
    subst hq
    have hfl : 0 ≤ Int.floor q := Int.floor_nonneg.mpr hq0
    have hs : ((clampSeconds (JSNumber.finite q) : Nat) : Int) = Int.floor q := by
      simp only [clampSeconds]
      exact Int.toNat_of_nonneg hfl
    rw [← hs]
    omega
  · intro hcase
    have hz : clampSeconds x = 0 := by
      rcases hcase with h | h | h | ⟨q, hq, hqneg⟩
      · subst h; rfl
      · subst h; rfl
      · subst h; rfl
      · subst hq
        simp only [clampSeconds]
        have h0 : Int.floor q < 0 := by
          rw [Int.floor_lt]
          exact_mod_cast hqneg
        omega
    simp only [formatDDHHMMSS, hz]

/-- C9 witness: a NaN input renders as 00:00:00:00, obtained from the main
theorem by discharging its non-finite hypothesis. -/
theorem FocusFlow.formatDDHHMMSS_decomposes_witness :
    FocusFlow.formatDDHHMMSS FocusFlow.JSNumber.nan
      = FocusFlow.pad2 0 ++ 58 :: FocusFlow.pad2 0 ++ 58 ::
          FocusFlow.pad2 0 ++ 58 :: FocusFlow.pad2 0 := by
  obtain ⟨d, h, m, sec, -, -, -, -, -, -, -, -, -, -, hz⟩ :=
    FocusFlow.formatDDHHMMSS_decomposes FocusFlow.JSNumber.nan
  exact hz (Or.inl rfl)

namespace FocusFlow

/-! ### Avatar initials (DashboardPage.js, nameInitials) -/

/-- ASCII whitespace matched by the JS regex used to split names. -/
def isJsSpace (c : Nat) : Bool :=
  c == 32 || c == 9 || c == 10 || c == 11 || c == 12 || c == 13

/-- Embeds String.prototype.toUpperCase on the ASCII fragment of one
code point. -/
def jsToUpper (c : Nat) : Nat :=
  if 97 ≤ c ∧ c ≤ 122 then c - 32 else c

/-- Accumulator pass behind wordsOf: collects the current run of non-space
code points (reversed) and emits it at each space or at the end. -/
def wordsOfAux : List Nat → List Nat → List (List Nat)
  | [], cur => if cur.isEmpty then [] else [cur.reverse]
  | c :: cs, cur =>
      if isJsSpace c then
        if cur.isEmpty then wordsOfAux cs [] else cur.reverse :: wordsOfAux cs []
      else wordsOfAux cs (c :: cur)

/-- Embeds String(name).trim().split(regex of spaces).filter(Boolean): the
maximal non-space runs of the input, in order. -/
def wordsOf (s : List Nat) : List (List Nat) :=
  wordsOfAux s []

/-- Embeds nameInitials on code-point lists; none models a null or undefined
name, which String(name or empty) turns into the empty string. -/
def nameInitials (name : Option (List Nat)) : List Nat :=
  match wordsOf (name.getD []) with
  | [] => [85]
  | [w] => (w.take 2).map jsToUpper
  | w1 :: w2 :: _ => [jsToUpper (w1.headD 0), jsToUpper (w2.headD 0)]

lemma wordsOfAux_mem_ne_nil :
    ∀ (s cur : List Nat) (w : List Nat), w ∈ wordsOfAux s cur → w ≠ [] := by
  intro s
  induction s with
  | nil =>
    intro cur w hw
    by_cases hc : cur.isEmpty
    · simp [wordsOfAux, hc] at hw
    · simp only [wordsOfAux, hc, Bool.false_eq_true, if_false,
        List.mem_singleton] at hw
      subst hw
      simpa [List.isEmpty_iff] using hc
  | cons c cs ih =>
    intro cur w hw
    by_cases hsp : isJsSpace c
    · by_cases hc : cur.isEmpty
      · simp only [wordsOfAux, hsp, hc, if_true] at hw
        exact ih [] w hw
      · simp only [wordsOfAux, hsp, hc, Bool.false_eq_true, if_false,
          if_true, List.mem_cons] at hw
        rcases hw with hw | hw
        · subst hw
          simpa [List.isEmpty_iff] using hc
        · exact ih [] w hw
    · simp only [wordsOfAux, hsp, Bool.false_eq_true, if_false] at hw
      exact ih (c :: cur) w hw

lemma wordsOfAux_all_space :
    ∀ s : List Nat, (∀ c ∈ s, isJsSpace c = true) → wordsOfAux s [] = [] := by
  intro s
  induction s with
  | nil => intro _; rfl
  | cons c cs ih =>
    intro hall
    have hc : isJsSpace c = true := hall c (List.mem_cons_self c cs)
    simp only [wordsOfAux, hc, if_true, List.isEmpty_nil]
    exact ih (fun x hx => hall x (List.mem_cons_of_mem c hx))

lemma jsToUpper_not_lower (c : Nat) :
    ¬ (97 ≤ jsToUpper c ∧ jsToUpper c ≤ 122) := by
  unfold jsToUpper
  split <;> omega

end FocusFlow

/-- C10 counterexample: the single-character name u yields the initials U,
although the input contains a non-whitespace character; so U is not returned
exactly when the input has no non-whitespace characters. -/
theorem FocusFlow.nameInitials_u_counterexample :
    FocusFlow.nameInitials (some [117]) = [85] ∧
    ¬ (∀ c ∈ [(117 : Nat)], FocusFlow.isJsSpace c = true) := by
  constructor
  · rfl
  · intro hall
    have := hall 117 (List.mem_singleton.mpr rfl)
    simp [FocusFlow.isJsSpace] at this

/-- C10 (amended): nameInitials is total and returns a nonempty list of one
or two code points none of which is a lowercase ASCII letter; it returns U
whenever the input has no non-whitespace characters (null, undefined, empty
and all-space strings included); with exactly one word it returns the first
two characters of that word uppercased; with two or more words it returns the
two word initials uppercased. -/
theorem FocusFlow.nameInitials_safe (name : Option (List Nat)) :
    nameInitials name ≠ [] ∧
    (nameInitials name).length ≤ 2 ∧
    (∀ c ∈ nameInitials name, ¬ (97 ≤ c ∧ c ≤ 122)) ∧
    ((∀ c ∈ name.getD [], isJsSpace c = true) → nameInitials name = [85]) ∧
    (∀ w, wordsOf (name.getD []) = [w] →
      nameInitials name = (w.take 2).map jsToUpper) ∧
    (∀ w1 w2 rest, wordsOf (name.getD []) = w1 :: w2 :: rest →
      nameInitials name = [jsToUpper (w1.headD 0), jsToUpper (w2.headD 0)]) := by
  refine ⟨?_, ?_, ?_, ?_, ?_, ?_⟩
  · unfold nameInitials
    match hw : wordsOf (name.getD []) with
    | [] => simp
    | [w] =>
      have hne : w ≠ [] := wordsOfAux_mem_ne_nil _ [] w
        (hw ▸ List.mem_singleton.mpr rfl)
      cases w with
      | nil => exact absurd rfl hne
      | cons a as => simp [List.take]
    | w1 :: w2 :: rest => simp
  · unfold nameInitials
    match hw : wordsOf (name.getD []) with
    | [] => simp
    | [w] =>
      have := List.length_take_le 2 w
      simp only [List.length_map]
      omega
    | w1 :: w2 :: rest => simp
  · unfold nameInitials
    match hw : wordsOf (name.getD []) with
    | [] =>
      intro c hc
      simp only [List.mem_singleton] at hc
      omega
    | [w] =>
      intro c hc
      simp only [List.mem_map] at hc
      obtain ⟨a, -, ha⟩ := hc
      exact ha ▸ jsToUpper_not_lower a
    | w1 :: w2 :: rest =>
      intro c hc
      simp only [List.mem_cons, List.not_mem_nil, or_false] at hc
      rcases hc with hc | hc <;> exact hc ▸ jsToUpper_not_lower _
  · intro hall
    unfold nameInitials
    rw [show wordsOf (name.getD []) = [] from wordsOfAux_all_space _ hall]
  · intro w hw
    unfold nameInitials
    rw [hw]
  · intro w1 w2 rest hw
    unfold nameInitials
    rw [hw]

/-- C10 witness: an all-space name yields U, from the main theorem with its
no-non-whitespace hypothesis discharged. -/
theorem FocusFlow.nameInitials_safe_witness :
    FocusFlow.nameInitials (some [32, 32]) = [85] :=
  (FocusFlow.nameInitials_safe (some [32, 32])).2.2.2.1 (by decide)

namespace FocusFlow

/-! ### Leaderboard engine (backend, modelled from the specification) -/

/-- Modelled from the spec: one scored user of a weekly snapshot (the backend
Leaderboard Engine source is not in the repository snapshot); score is the
count of completed logs in the week window. -/
structure UserScore where
  user_id : String
  name : String
  score : Nat
deriving DecidableEq

/-- Modelled from the spec: the before-rank order of computeWeekly, higher
score first and ties broken by user_id ascending. -/
def entryLE (a b : UserScore) : Prop :=
  b.score < a.score ∨ (a.score = b.score ∧ a.user_id ≤ b.user_id)

instance : DecidableRel entryLE := fun a b => by
  unfold entryLE
  exact inferInstance

instance : IsTotal UserScore entryLE where
  total := by
    intro a b
    rcases Nat.lt_trichotomy a.score b.score with h | h | h
    · right; left; exact h
    · rcases le_total a.user_id b.user_id with hu | hu
      · left; right; exact ⟨h, hu⟩
      · right; right; exact ⟨h.symm, hu⟩
    · left; left; exact h

instance : IsTrans UserScore entryLE where
  trans := by
    intro a b c hab hbc
    rcases hab with hab | ⟨hab, hu⟩ <;> rcases hbc with hbc | ⟨hbc, hv⟩
    · left; omega
    · left; omega
    · left; omega
    · right; exact ⟨hab.trans hbc, le_trans hu hv⟩

/-- Modelled from the spec: one raw completion-log event visible to the
leaderboard in the current week window. -/
structure WeekLogEvent where
  user_id : String
  status : String
deriving DecidableEq

/-- Modelled from the spec: a user's weekly score is the count of that user's
completed logs within the window, recomputed from the raw logs. -/
def weeklyScore (logs : List WeekLogEvent) (uid : String) : Nat :=
  logs.countP (fun l => l.user_id == uid && l.status == "completed")

/-- Modelled from the spec: the identity store rows the engine scores. -/
structure LbUser where
  id : String
  name : String
deriving DecidableEq

/-- Modelled from the spec: every user paired with the recomputed score. -/
def scoredEntries (users : List LbUser) (logs : List WeekLogEvent) :
    List UserScore :=
  users.map (fun u => ⟨u.id, u.name, weeklyScore logs u.id⟩)

/-- Modelled from the spec: contiguous rank assignment starting at k over an
already sorted list. -/
def rankedFrom (k : Nat) : List UserScore → List (UserScore × Nat)
  | [] => []
  | e :: es => (e, k) :: rankedFrom (k + 1) es

/-- Modelled from the spec: the full sorted and ranked snapshot, before any
offset or limit slicing. -/
def fullRanking (users : List LbUser) (logs : List WeekLogEvent) :
    List (UserScore × Nat) :=
  rankedFrom 1 (List.insertionSort entryLE (scoredEntries users logs))

/-- Modelled from the spec: computeWeekly sorts descending by score with ties
by user_id ascending, assigns ranks 1..N over the full set, then slices by
offset and limit. -/
def computeWeekly (limit offset : Nat) (users : List LbUser)
    (logs : List WeekLogEvent) : List (UserScore × Nat) :=
  ((fullRanking users logs).drop offset).take limit

lemma rankedFrom_map_snd :
    ∀ (k : Nat) (l : List UserScore),
      (rankedFrom k l).map Prod.snd = List.range' k l.length := by
  intro k l
  induction l generalizing k with
  | nil => rfl
  | cons e es ih => simp [rankedFrom, List.range', ih]

lemma rankedFrom_map_fst :
    ∀ (k : Nat) (l : List UserScore), (rankedFrom k l).map Prod.fst = l := by
  intro k l
  induction l generalizing k with
  | nil => rfl
  | cons e es ih => simp [rankedFrom, ih]

end FocusFlow

/-- C2: the ranks of the full snapshot are exactly 1..N in order (a
permutation with no gaps or duplicates for the N scored users), the ranked
entries are sorted descending by score with ties by user_id ascending, the
ranked entries are a permutation of the scored users, slicing by offset and
limit happens only after ranking the full set, and recomputation is
deterministic. -/
theorem FocusFlow.computeWeekly_ranks_contiguous
    (limit offset : Nat) (users : List FocusFlow.LbUser)
    (logs : List FocusFlow.WeekLogEvent) :
    (fullRanking users logs).map Prod.snd = List.range' 1 users.length ∧
    List.Sorted entryLE ((fullRanking users logs).map Prod.fst) ∧
    ((fullRanking users logs).map Prod.fst).Perm (scoredEntries users logs) ∧
    computeWeekly limit offset users logs
      = ((fullRanking users logs).drop offset).take limit ∧
    computeWeekly limit offset users logs
      = computeWeekly limit offset users logs := by
  refine ⟨?_, ?_, ?_, rfl, rfl⟩
  · rw [fullRanking, rankedFrom_map_snd, List.length_insertionSort]
    simp [scoredEntries]
  · rw [fullRanking, rankedFrom_map_fst]
    exact List.sorted_insertionSort entryLE _
  · rw [fullRanking, rankedFrom_map_fst]
    exact List.perm_insertionSort entryLE _

namespace FocusFlow

/-- Modelled from the spec: a weekly leaderboard snapshot; reset_at is only
stamped when the snapshot is closed into history. -/
structure Snapshot where
  week_start : Int
  week_end : Int
  reset_at : Option Int
  entries : List UserScore
deriving DecidableEq

/-- Modelled from the spec: the single shared mutable resource, the current
snapshot plus the append-only history. -/
structure LeaderboardState where
  current : Snapshot
  history : List Snapshot
deriving DecidableEq

/-- Modelled from the spec: the idempotent reset. When the current snapshot
already has the computed week_start it is a no-op returning rolled_over
false; otherwise it stamps reset_at, appends the closed snapshot to history
only if no history entry for its week_start exists yet, and opens a fresh
snapshot for the new window, returning rolled_over true. -/
def reset (wkStart wkEnd nowTs : Int) (st : LeaderboardState) :
    (Bool × Int) × LeaderboardState :=
  if st.current.week_start = wkStart then
    ((false, wkStart), st)
  else
    let closed : Snapshot := { st.current with reset_at := some nowTs }
    let history2 : List Snapshot :=
      if st.history.any (fun sn => sn.week_start == closed.week_start) then
        st.history
      else
        closed :: st.history
    ((true, wkStart), ⟨⟨wkStart, wkEnd, none, []⟩, history2⟩)

end FocusFlow

/-- C1: across a week transition, the first reset returns rolled_over true
and the second returns rolled_over false leaving the state untouched;
exactly one history entry exists for the closed week_start; every previously
archived snapshot survives unchanged; and the at-most-one-entry-per-week
invariant is preserved. -/
theorem FocusFlow.reset_idempotent_rollover
    (wkStart wkEnd n1 n2 : Int) (st : FocusFlow.LeaderboardState)
    (hchange : st.current.week_start ≠ wkStart)
    (hfresh : st.history.countP
      (fun sn => sn.week_start == st.current.week_start) = 0) :
    (reset wkStart wkEnd n1 st).1.1 = true ∧
    (reset wkStart wkEnd n1 st).1.2 = wkStart ∧
    (reset wkStart wkEnd n2 (reset wkStart wkEnd n1 st).2).1.1 = false ∧
    (reset wkStart wkEnd n2 (reset wkStart wkEnd n1 st).2).2
      = (reset wkStart wkEnd n1 st).2 ∧
    (reset wkStart wkEnd n1 st).2.history.countP
      (fun sn => sn.week_start == st.current.week_start) = 1 ∧
    (∀ sn ∈ st.history, sn ∈ (reset wkStart wkEnd n1 st).2.history) ∧
    (∀ w : Int,
      st.history.countP (fun sn => sn.week_start == w) ≤ 1 →
      (reset wkStart wkEnd n1 st).2.history.countP
        (fun sn => sn.week_start == w) ≤ 1) := by
  have hany : st.history.any
      (fun sn => sn.week_start == st.current.week_start) = false := by
    rw [List.any_eq_false]
    intro sn hsn
    have := List.countP_eq_zero.mp hfresh sn hsn
    simpa using this
  have hr1 : reset wkStart wkEnd n1 st
      = ((true, wkStart),
         ⟨⟨wkStart, wkEnd, none, []⟩,
          { st.current with reset_at := some n1 } :: st.history⟩) := by
    unfold reset
    rw [if_neg hchange]
    simp only []
    rw [hany]
    simp
  rw [hr1]
  refine ⟨rfl, rfl, ?_, ?_, ?_, ?_, ?_⟩
  · unfold reset
    rw [if_pos rfl]
  · unfold reset
    rw [if_pos rfl]
  · rw [List.countP_cons, hfresh]
    simp
  · intro sn hsn
    exact List.mem_cons_of_mem _ hsn
  · intro w hw
    rw [List.countP_cons]
    by_cases hww : st.current.week_start = w
    · have h0 : st.history.countP (fun sn => sn.week_start == w) = 0 := by
        rw [← hww]
        exact hfresh
      simp [h0, hww]
    · simp only [hww]
      have : (({ st.current with reset_at := some n1 } : Snapshot).week_start
          == w) = false := by
        simpa using hww
      rw [this]
      simpa using hw

/-- C1 witness: a fresh state rolls over to week_start 7 with rolled_over
true on the first call. -/
theorem FocusFlow.reset_idempotent_rollover_witness :
    (FocusFlow.reset 7 14 7
      (⟨⟨0, 7, none, []⟩, []⟩ : FocusFlow.LeaderboardState)).1.1 = true :=
  (FocusFlow.reset_idempotent_rollover 7 14 7 8
    (⟨⟨0, 7, none, []⟩, []⟩ : FocusFlow.LeaderboardState)
    (by decide) (by decide)).1
